import Mathlib

/-!
Verification of the `parallel_llm` core pipeline (src/parallel_llm/core.py).

Shallow embedding: the external OpenAI provider is modelled by an oracle
giving, for each processor and each attempt index, the outcome of one
provider call (a parsed value, or one of the exception kinds the code
catches).  Async scheduling is modelled deterministically:
`asyncio.gather(*tasks)` returns one outcome per spawned task, in task
order, which is the documented semantics of gather.  Time is abstract:
`asyncio.sleep(2 ** attempt)` is recorded as the number `2 ^ attempt` in a
sleep trace.  Provider-call counts are threaded through every function so
that "no further provider call is made" is a statement about the model.
-/

namespace ParallelLLM

/-- A pydantic schema (the caller's `response_format` class): a name, the
ordered field names, and whether the class is a `BaseModel` subclass
(`issubclass(response_format, BaseModel)` in `_parse_internal`). -/
structure Schema where
  name : String
  fields : List String
  isBaseModelSub : Bool
deriving DecidableEq, Repr, Inhabited

/-- A runtime class: either the caller's schema class itself, or the
`ReasoningFormat` subclass that `_create_reasoning_format` derives from it
(same fields plus a trailing `reasoning : str` field). -/
inductive Cls where
  | base (s : Schema)
  | withReasoning (s : Schema)
deriving DecidableEq, Repr, Inhabited

/-- Field names of a class: `_create_reasoning_format` adds a single
`reasoning` field to the original schema's fields. -/
def clsFields : Cls → List String
  | .base s => s.fields
  | .withReasoning s => s.fields ++ ["reasoning"]

/-- Python `isinstance(v, target)` on the modelled class hierarchy:
`ReasoningFormat` is declared as `class ReasoningFormat(original_format)`,
so its instances are also instances of the original format. -/
def isSubclassOf : Cls → Cls → Bool
  | c, d =>
    c == d ||
      (match c, d with
        | .withReasoning s, .base t => s == t
        | _, _ => false)

/-- A parsed value: its runtime class and its field assignments
(`model_dump` renders exactly these pairs). -/
structure Value where
  cls : Cls
  data : List (String × String)
deriving DecidableEq, Repr, Inhabited

/-- A pydantic instance carries exactly the fields of its class. -/
def wellFormed (v : Value) : Bool :=
  v.data.map Prod.fst == clsFields v.cls

/-- Outcome of one raw provider call
(`openai_client.beta.chat.completions.parse` under `asyncio.wait_for`):
either a parsed value, or one of the exception kinds the retry loop in
`_make_single_request` catches. -/
inductive CallOutcome where
  | success (v : Value)
  | timeout
  | rateLimit
  | apiError
  | otherError (msg : String)
deriving DecidableEq, Repr

/-- Error taxonomy raised by the core.  `errors.py` is not under `src/`;
the constructors are modelled from the spec's error taxonomy (§7) and from
how `core.py` raises them: `processing` is `ProcessingError` with its
optional `failed_processors` payload, `openaiMapped` stands for whatever
`handle_openai_error` returns (rate-limit vs other API error),
`decisionMaker` is `DecisionMakerError`, `validation` is
`ValidationError`. -/
inductive PError where
  | processing (msg : String) (failedProcessors : Option Nat)
  | openaiMapped (isRateLimit : Bool)
  | decisionMaker (msg : String)
  | validation (msg : String)
deriving DecidableEq, Repr

/-- `isinstance(result, Exception)` on a gathered outcome. -/
def isException : Except PError Value → Bool
  | .error _ => true
  | .ok _ => false

/-- Classification of the exception raised once the retry budget is
exhausted, mirroring the four `except` arms of `_make_single_request`. -/
def finalError : CallOutcome → PError
  | .timeout => .processing "Request timed out" none
  | .rateLimit => .openaiMapped true
  | .apiError => .openaiMapped false
  | .otherError m => .processing ("Unexpected error: " ++ m) none
  | .success _ => .processing "unreachable" none

/-- The retry loop of `_make_single_request`, from attempt index `k` with
`gas` retries still allowed (`gas = 0` means `attempt == max_retries`).
Returns the result, the number of attempts made (provider calls issued),
and the trace of back-off sleeps, in order. -/
def attemptFrom (oracle : Nat → CallOutcome) (k : Nat) :
    Nat → Except PError Value × Nat × List Nat
  | 0 =>
    match oracle k with
    | .success v => (Except.ok v, k + 1, [])
    | o => (Except.error (finalError o), k + 1, [])
  | gas + 1 =>
    match oracle k with
    | .success v => (Except.ok v, k + 1, [])
    | _ =>
      let rest := attemptFrom oracle (k + 1) gas
      (rest.1, rest.2.1, 2 ^ k :: rest.2.2)

/-- `_make_single_request`: up to `maxRetries + 1` attempts, sleeping
`2 ^ attempt` after each failed non-final attempt.  The oracle abstracts
the provider: the model name, messages and response format passed by the
code only influence which value the provider returns, which the oracle
decides. -/
def makeSingleRequest (maxRetries : Nat) (oracle : Nat → CallOutcome) :
    Except PError Value × Nat × List Nat :=
  attemptFrom oracle 0 maxRetries

/-- The configuration values `core.py` reads (config.py is glue; only the
fields that influence the modelled control flow appear). -/
structure FrameworkConfig where
  numProcessors : Nat
  maxRetries : Nat
deriving DecidableEq, Repr

/-- The external environment of one pipeline invocation: the provider's
response — for a given requested response-format class — to attempt `k` of
processor `i`, and to attempt `k` of the decision-maker call. -/
structure Env where
  procOracle : Cls → Nat → Nat → CallOutcome
  decisionOracle : Cls → Nat → CallOutcome

/-- `actual_format` in `_process_parallel_requests`:
`_create_reasoning_format(response_format) if pass_reasoning else
response_format`. -/
def actualFormat (fmt : Schema) (passReasoning : Bool) : Cls :=
  if passReasoning then .withReasoning fmt else .base fmt

/-- The per-task results of `asyncio.gather(*tasks, return_exceptions=True)`
in `_process_parallel_requests`: one outcome per spawned task, in task
(processor-index) order, each task an independently retried
`_make_single_request`. -/
def fanResults (cfg : FrameworkConfig) (procOracle : Nat → Nat → CallOutcome) :
    List (Except PError Value) :=
  (List.range cfg.numProcessors).map fun i =>
    (makeSingleRequest cfg.maxRetries (procOracle i)).1

/-- Total number of provider calls the fan-out issues (sum of per-processor
attempt counts). -/
def fanCalls (cfg : FrameworkConfig) (procOracle : Nat → Nat → CallOutcome) : Nat :=
  ((List.range cfg.numProcessors).map fun i =>
    (makeSingleRequest cfg.maxRetries (procOracle i)).2.1).sum

/-- `_process_parallel_requests`: spawn `num_processors` tasks, gather the
outcomes, keep the non-exception results in order, count the failures, and
raise `ProcessingError("All parallel processors failed",
failed_processors=failed_count)` when no task succeeded.  (The trailing
`except` of the function re-raises `ProcessingError` unchanged and can wrap
no other exception on these paths.) -/
def processParallelRequests (cfg : FrameworkConfig)
    (procOracle : Cls → Nat → Nat → CallOutcome) (fmt : Schema)
    (passReasoning : Bool) : Except PError (List Value) × Nat :=
  let actualFmt := actualFormat fmt passReasoning
  let results := fanResults cfg (procOracle actualFmt)
  let successfulResults := results.filterMap Except.toOption
  let failedCount := results.countP isException
  if successfulResults.isEmpty then
    (Except.error (.processing "All parallel processors failed" (some failedCount)),
      fanCalls cfg (procOracle actualFmt))
  else
    (Except.ok successfulResults, fanCalls cfg (procOracle actualFmt))

/-- `_make_decision`: short-circuit on a single response; otherwise build
the decision prompt (string assembly with no semantic effect on the
outcome, abstracted into the decision oracle) and issue one
`_make_single_request` with the original response format; on any exception
fall back to `responses[0]` when the list is non-empty, else raise
`DecisionMakerError`.  The decision maker always uses the original
response format (`response_format=response_format` at the call site).  The
second component counts the provider calls this step issues. -/
def makeDecision (cfg : FrameworkConfig) (decisionOracle : Cls → Nat → CallOutcome)
    (fmt : Schema) (responses : List Value) : Except PError Value × Nat :=
  if responses.length = 1 then
    (Except.ok responses.headI, 0)
  else
    let call := makeSingleRequest cfg.maxRetries (decisionOracle (Cls.base fmt))
    match call.1 with
    | .ok v => (Except.ok v, call.2.1)
    | .error _ =>
      match responses with
      | v :: _ => (Except.ok v, call.2.1)
      | [] =>
        (Except.error
          (.decisionMaker "Decision maker failed and no fallback available"),
          call.2.1)

/-- `final_response.model_dump()`. -/
def modelDump (v : Value) : List (String × String) := v.data

/-- `response_format.model_validate(data)`: pydantic re-parses the dumped
fields against the schema, requiring every declared field and ignoring
extra keys (pydantic's default `extra=ignore`). -/
def modelValidate (s : Schema) (data : List (String × String)) :
    Except PError Value :=
  if s.fields.all fun f => (data.lookup f).isSome then
    Except.ok
      ⟨Cls.base s, s.fields.filterMap fun f => (data.lookup f).map fun x => (f, x)⟩
  else
    Except.error (.validation "Failed to validate final response")

/-- Step 3 of `_parse_internal`: if the final response is already an
instance of `response_format` it is returned unchanged, otherwise it is
re-validated from its `model_dump` (all modelled values are pydantic
models, so the `hasattr(final_response, 'model_dump')` branch applies). -/
def validateFinal (fmt : Schema) (v : Value) : Except PError Value :=
  if isSubclassOf v.cls (Cls.base fmt) then Except.ok v
  else modelValidate fmt (modelDump v)

/-- `_parse_internal`: input validation, fan-out, decision, final
validation.  The second component counts every provider call issued during
the invocation.  `responseFormat = none` models a falsy (missing)
`response_format` argument. -/
def parseInternal (cfg : FrameworkConfig) (env : Env) (model : String)
    (messages : List (String × String)) (responseFormat : Option Schema)
    (passReasoning : Bool) : Except PError Value × Nat :=
  if model = "" then
    (Except.error (.validation "Model name is required"), 0)
  else if messages = [] then
    (Except.error (.validation "Messages are required"), 0)
  else
    match responseFormat with
    | none => (Except.error (.validation "Response format is required"), 0)
    | some fmt =>
      if fmt.isBaseModelSub = false then
        (Except.error (.validation "Response format must be a Pydantic BaseModel"), 0)
      else
        let fan := processParallelRequests cfg env.procOracle fmt passReasoning
        match fan.1 with
        | .error e => (Except.error e, fan.2)
        | .ok successes =>
          let dec := makeDecision cfg env.decisionOracle fmt successes
          match dec.1 with
          | .error e => (Except.error e, fan.2 + dec.2)
          | .ok final =>
            match validateFinal fmt final with
            | .ok v => (Except.ok v, fan.2 + dec.2)
            | .error e => (Except.error e, fan.2 + dec.2)

/-- `parse`: the public entry point just forwards to `_parse_internal`. -/
def parse (cfg : FrameworkConfig) (env : Env) (model : String)
    (messages : List (String × String)) (responseFormat : Option Schema)
    (passReasoning : Bool) : Except PError Value × Nat :=
  parseInternal cfg env model messages responseFormat passReasoning

/-- A provider oracle conforms to a requested format when every value it
successfully parses is an instance of exactly that class, carrying its
fields — the contract of `completions.parse(response_format=...)`. -/
def oracleConforms (o : Nat → CallOutcome) (c : Cls) : Prop :=
  ∀ k v, o k = .success v → v.cls = c ∧ wellFormed v = true

/-- The provider contract of §6: every successful structured-output parse
returns an instance of the requested format class. -/
def envConforms (env : Env) : Prop :=
  (∀ c i, oracleConforms (env.procOracle c i) c) ∧
    ∀ c, oracleConforms (env.decisionOracle c) c

/-- A schema for concrete runs: one string field `ans`, a proper
`BaseModel` subclass. -/
def cexFmt : Schema := ⟨"Answer", ["ans"], true⟩

/-- A canonical well-formed instance of a class: every declared field set
to `"x"`. -/
def confValue (c : Cls) : Value := ⟨c, (clsFields c).map fun f => (f, "x")⟩

/-- A provider that always succeeds, returning a well-formed instance of
whatever format class is requested. -/
def confEnv : Env :=
  ⟨fun c _ _ => CallOutcome.success (confValue c),
   fun c _ => CallOutcome.success (confValue c)⟩

/-- A provider whose every call times out. -/
def failEnv : Env :=
  ⟨fun _ _ _ => CallOutcome.timeout, fun _ _ => CallOutcome.timeout⟩

/-- A provider where fan-out succeeds (with a fixed reasoning-augmented
payload for reasoning-format requests) and the decision call also
succeeds. -/
def leakEnv : Env :=
  ⟨fun c _ _ =>
    match c with
    | Cls.withReasoning s =>
        CallOutcome.success
          ⟨Cls.withReasoning s, [("ans", "42"), ("reasoning", "because")]⟩
    | Cls.base s => CallOutcome.success ⟨Cls.base s, [("ans", "42")]⟩,
   fun c _ =>
    match c with
    | Cls.base s => CallOutcome.success ⟨Cls.base s, [("ans", "7")]⟩
    | _ => CallOutcome.timeout⟩

/-- A decision oracle that succeeds on the original format. -/
def decOkOracle : Cls → Nat → CallOutcome := fun c _ =>
  match c with
  | Cls.base s => CallOutcome.success ⟨Cls.base s, [("ans", "7")]⟩
  | _ => CallOutcome.timeout

/-- A decision oracle whose calls always time out. -/
def decFailOracle : Cls → Nat → CallOutcome := fun _ _ => CallOutcome.timeout

/-- A provider where processor 0 times out and every other processor
succeeds, as does the decision call. -/
def mixedEnv : Env :=
  ⟨fun c i _ =>
    if i = 0 then CallOutcome.timeout else CallOutcome.success (confValue c),
   fun c _ => CallOutcome.success (confValue c)⟩


theorem attemptFrom_attempts_le (oracle : Nat → CallOutcome) :
    ∀ gas k, (attemptFrom oracle k gas).2.1 ≤ k + gas + 1 := by
  intro gas
  induction gas with
  | zero =>
    intro k
    unfold attemptFrom
    cases oracle k <;> simp
  | succ g ih =>
    intro k
    unfold attemptFrom
    cases oracle k <;> simp <;>
      calc (attemptFrom oracle (k + 1) g).2.1 ≤ (k + 1) + g + 1 := ih (k + 1)
        _ ≤ k + (g + 1) + 1 := by omega

theorem attemptFrom_attempts_ge (oracle : Nat → CallOutcome) :
    ∀ gas k, k + 1 ≤ (attemptFrom oracle k gas).2.1 := by
  intro gas
  induction gas with
  | zero =>
    intro k
    unfold attemptFrom
    cases oracle k <;> simp
  | succ g ih =>
    intro k
    unfold attemptFrom
    cases oracle k <;> simp <;>
      calc k + 1 ≤ (k + 1) + 1 := by omega
        _ ≤ (attemptFrom oracle (k + 1) g).2.1 := ih (k + 1)

theorem attemptFrom_sleeps (oracle : Nat → CallOutcome) :
    ∀ gas k, (attemptFrom oracle k gas).2.2 =
      (List.range' k ((attemptFrom oracle k gas).2.1 - 1 - k)).map fun j => 2 ^ j := by
  intro gas
  induction gas with
  | zero =>
    intro k
    unfold attemptFrom
    cases oracle k <;> simp
  | succ g ih =>
    intro k
    unfold attemptFrom
    cases oracle k
    case success v => simp
    all_goals
      simp only []
      have hge := attemptFrom_attempts_ge oracle g (k + 1)
      have heq : (attemptFrom oracle (k + 1) g).2.1 - 1 - k =
          ((attemptFrom oracle (k + 1) g).2.1 - 1 - (k + 1)) + 1 := by omega
      rw [heq, List.range'_succ, List.map_cons, ih (k + 1)]

theorem attemptFrom_ok_oracle (oracle : Nat → CallOutcome) :
    ∀ gas k v, (attemptFrom oracle k gas).1 = Except.ok v →
      ∃ j, oracle j = CallOutcome.success v := by
  intro gas
  induction gas with
  | zero =>
    intro k v h
    unfold attemptFrom at h
    cases ho : oracle k <;> rw [ho] at h <;> simp at h
    exact ⟨k, by rw [ho, h]⟩
  | succ g ih =>
    intro k v h
    unfold attemptFrom at h
    cases ho : oracle k <;> rw [ho] at h
    case success w => exact ⟨k, by rw [ho]; simp at h; rw [h]⟩
    all_goals exact ih (k + 1) v h

theorem makeSingleRequest_ok_conforms (maxRetries : Nat)
    (oracle : Nat → CallOutcome) (c : Cls) (hconf : oracleConforms oracle c)
    (v : Value) (h : (makeSingleRequest maxRetries oracle).1 = Except.ok v) :
    v.cls = c ∧ wellFormed v = true := by
  obtain ⟨j, hj⟩ := attemptFrom_ok_oracle oracle maxRetries 0 v h
  exact hconf j v hj

theorem map_fst_map_pair (l : List String) :
    (l.map fun f => (f, "x")).map Prod.fst = l := by
  induction l with
  | nil => rfl
  | cons a t ih => simp [ih]

theorem wellFormed_confValue (c : Cls) : wellFormed (confValue c) = true := by
  simp only [wellFormed, confValue, map_fst_map_pair]
  exact beq_self_eq_true _

theorem confEnv_conforms : envConforms confEnv := by
  constructor
  · intro c i k v h
    simp only [confEnv] at h
    injection h with h2
    subst h2
    exact ⟨rfl, wellFormed_confValue c⟩
  · intro c k v h
    simp only [confEnv] at h
    injection h with h2
    subst h2
    exact ⟨rfl, wellFormed_confValue c⟩

theorem actualFormat_subclass (fmt : Schema) (passReasoning : Bool) :
    isSubclassOf (actualFormat fmt passReasoning) (Cls.base fmt) = true := by
  cases passReasoning <;> simp [actualFormat, isSubclassOf]

theorem filterMap_toOption_map_ok_sublist (l : List (Except PError Value)) :
    List.Sublist ((l.filterMap Except.toOption).map Except.ok) l := by
  induction l with
  | nil => simp
  | cons a t ih =>
    cases a with
    | error e =>
      have h : (Except.error e : Except PError Value).toOption = none := rfl
      rw [List.filterMap_cons, h]
      exact List.Sublist.cons _ ih
    | ok v =>
      have h : (Except.ok v : Except PError Value).toOption = some v := rfl
      rw [List.filterMap_cons, h, List.map_cons]
      exact List.Sublist.cons₂ _ ih

theorem filterMap_toOption_head (l : List (Except PError Value)) :
    ∀ (i : Nat) (v : Value), l[i]? = some (Except.ok v) →
      (∀ j : Nat, j < i → ∃ e : PError,
        l[j]? = some (Except.error e : Except PError Value)) →
      (l.filterMap Except.toOption).head? = some v := by
  induction l with
  | nil => intro i v h; simp at h
  | cons a t ih =>
    intro i v h hmin
    cases i with
    | zero =>
      simp at h
      rw [h]
      simp [List.filterMap_cons, Except.toOption]
    | succ i =>
      obtain ⟨e, he⟩ := hmin 0 (Nat.succ_pos i)
      simp at he
      rw [he]
      simp only [List.filterMap_cons, Except.toOption]
      refine ih i v (by simpa using h) ?_
      intro j hj
      have := hmin (j + 1) (by omega)
      simpa using this

theorem lookup_eq_none_of_not_mem_keys (data : List (String × String))
    (f : String) (h : f ∉ data.map Prod.fst) : data.lookup f = none := by
  induction data with
  | nil => rfl
  | cons p t ih =>
    simp only [List.map_cons, List.mem_cons] at h
    push_neg at h
    have hne : (f == p.1) = false := by
      simp [h.1]
    cases p with
    | mk k b =>
      simp only [List.lookup]
      simp only [Prod.fst] at hne
      rw [hne]
      exact ih h.2

theorem validateFinal_id_of_instance (fmt : Schema) (v : Value)
    (h : isSubclassOf v.cls (Cls.base fmt) = true) :
    validateFinal fmt v = Except.ok v := by
  simp [validateFinal, h]

theorem makeDecision_ok_of_conforming (cfg : FrameworkConfig)
    (decisionOracle : Cls → Nat → CallOutcome) (fmt : Schema)
    (hdec : oracleConforms (decisionOracle (Cls.base fmt)) (Cls.base fmt))
    (responses : List Value) (hne : responses ≠ [])
    (hconf : ∀ w ∈ responses, isSubclassOf w.cls (Cls.base fmt) = true) :
    ∃ w, (makeDecision cfg decisionOracle fmt responses).1 = Except.ok w ∧
      isSubclassOf w.cls (Cls.base fmt) = true := by
  by_cases hlen : responses.length = 1
  · obtain ⟨a, ha⟩ := List.length_eq_one.mp hlen
    subst ha
    exact ⟨a, by simp [makeDecision], hconf a (by simp)⟩
  · cases hcall : (makeSingleRequest cfg.maxRetries
        (decisionOracle (Cls.base fmt))).1 with
    | ok u =>
      obtain ⟨hcls, _⟩ := makeSingleRequest_ok_conforms cfg.maxRetries _ _ hdec u hcall
      refine ⟨u, ?_, by simp [isSubclassOf, hcls]⟩
      simp [makeDecision, hlen, hcall]
    | error e =>
      cases responses with
      | nil => exact absurd rfl hne
      | cons a rest =>
        refine ⟨a, ?_, hconf a (by simp)⟩
        simp [makeDecision, hlen, hcall]
        split <;> rfl

/-- C6: a single executor attempts the provider call at most
`maxRetries + 1` times, and the back-off sleep between attempt `k`
(0-indexed) and attempt `k + 1` is exactly `2 ^ k` time units, whatever
retryable outcome each failed attempt had (the oracle ranges over
timeouts, rate limits, API errors and arbitrary other exceptions). -/
theorem single_request_retry_bound_and_backoff (maxRetries : Nat)
    (oracle : Nat → CallOutcome) :
    (makeSingleRequest maxRetries oracle).2.1 ≤ maxRetries + 1 ∧
      (makeSingleRequest maxRetries oracle).2.2 =
        (List.range ((makeSingleRequest maxRetries oracle).2.1 - 1)).map
          fun k => 2 ^ k := by
  constructor
  · simpa [makeSingleRequest] using attemptFrom_attempts_le oracle maxRetries 0
  · have h := attemptFrom_sleeps oracle maxRetries 0
    simp only [makeSingleRequest] at h ⊢
    rw [h, List.range_eq_range']
    norm_num

/-- C5: when exactly one successful value survives aggregation, the
decision step returns it immediately and issues zero further provider
calls. -/
theorem decision_single_candidate_short_circuit (cfg : FrameworkConfig)
    (decisionOracle : Cls → Nat → CallOutcome) (fmt : Schema) (v : Value) :
    makeDecision cfg decisionOracle fmt [v] = (Except.ok v, 0) := rfl

/-- C4: when the decision-maker synthesis call fails and at least two
successful candidates exist (so the synthesis call is actually issued),
the decision step returns the first successful candidate instead of
propagating the error. -/
theorem decision_failure_falls_back_to_first (cfg : FrameworkConfig)
    (decisionOracle : Cls → Nat → CallOutcome) (fmt : Schema)
    (v w : Value) (rest : List Value) (e : PError)
    (hfail : (makeSingleRequest cfg.maxRetries
      (decisionOracle (Cls.base fmt))).1 = Except.error e) :
    (makeDecision cfg decisionOracle fmt (v :: w :: rest)).1 = Except.ok v := by
  simp [makeDecision, hfail]

/-- Concrete run of the C4 theorem: two candidates, the decision call
times out, the first candidate is returned. -/
theorem decision_failure_falls_back_to_first_witness :
    (makeDecision ⟨2, 0⟩ decFailOracle cexFmt
      [⟨Cls.base cexFmt, [("ans", "1")]⟩, ⟨Cls.base cexFmt, [("ans", "2")]⟩]).1 =
      Except.ok ⟨Cls.base cexFmt, [("ans", "1")]⟩ :=
  decision_failure_falls_back_to_first ⟨2, 0⟩ decFailOracle cexFmt
    ⟨Cls.base cexFmt, [("ans", "1")]⟩ ⟨Cls.base cexFmt, [("ans", "2")]⟩ []
    (PError.processing "Request timed out" none) rfl

/-- C8: a candidate that is already an instance of the caller's response
format passes the final validation step unchanged. -/
theorem validator_returns_conforming_candidate_unchanged (fmt : Schema)
    (v : Value) (h : isSubclassOf v.cls (Cls.base fmt) = true) :
    validateFinal fmt v = Except.ok v :=
  validateFinal_id_of_instance fmt v h

/-- Concrete run of the C8 theorem on a conforming candidate. -/
theorem validator_returns_conforming_candidate_unchanged_witness :
    validateFinal cexFmt ⟨Cls.base cexFmt, [("ans", "42")]⟩ =
      Except.ok ⟨Cls.base cexFmt, [("ans", "42")]⟩ :=
  validator_returns_conforming_candidate_unchanged cexFmt
    ⟨Cls.base cexFmt, [("ans", "42")]⟩ (by decide)

/-- C7 as stated is false: invoked with an empty candidate list, the
decision step still issues a provider call and, when that call succeeds,
returns its value instead of raising `DecisionMakerError` — the outcome
does depend on a further provider call. -/
theorem decision_empty_counterexample :
    (makeDecision ⟨1, 0⟩ decOkOracle cexFmt []).1 =
      Except.ok ⟨Cls.base cexFmt, [("ans", "7")]⟩ ∧
      (makeDecision ⟨1, 0⟩ decOkOracle cexFmt []).2 = 1 :=
  ⟨rfl, rfl⟩

/-- C7 amended: with an empty candidate list the decision step still
issues at least one provider call, and raises `DecisionMakerError`
exactly when that synthesis call fails. -/
theorem decision_empty_fails_after_failed_call (cfg : FrameworkConfig)
    (decisionOracle : Cls → Nat → CallOutcome) (fmt : Schema) (e : PError)
    (hfail : (makeSingleRequest cfg.maxRetries
      (decisionOracle (Cls.base fmt))).1 = Except.error e) :
    (makeDecision cfg decisionOracle fmt []).1 =
      Except.error (PError.decisionMaker
        "Decision maker failed and no fallback available") ∧
      1 ≤ (makeDecision cfg decisionOracle fmt []).2 := by
  constructor
  · simp [makeDecision, hfail]
  · simp only [makeDecision, makeSingleRequest, hfail]
    norm_num
    have := attemptFrom_attempts_ge (decisionOracle (Cls.base fmt)) cfg.maxRetries 0
    simp only [makeSingleRequest] at hfail
    rw [hfail]
    simpa using this

/-- Concrete run of the amended C7 theorem: empty candidates plus a
failing decision call yield `DecisionMakerError` after one call. -/
theorem decision_empty_fails_after_failed_call_witness :
    (makeDecision ⟨1, 0⟩ decFailOracle cexFmt []).1 =
      Except.error (PError.decisionMaker
        "Decision maker failed and no fallback available") ∧
      1 ≤ (makeDecision ⟨1, 0⟩ decFailOracle cexFmt []).2 :=
  decision_empty_fails_after_failed_call ⟨1, 0⟩ decFailOracle cexFmt
    (PError.processing "Request timed out" none) rfl

/-- C2: when every one of the `numProcessors` fan-out executors exhausts
its retries, the pipeline raises the all-processors-failed
`ProcessingError` carrying a failure count equal to `numProcessors`. -/
theorem parse_all_processors_failed (cfg : FrameworkConfig) (env : Env)
    (model : String) (messages : List (String × String)) (fmt : Schema)
    (passReasoning : Bool)
    (hm : model ≠ "") (hmsg : messages ≠ []) (hbm : fmt.isBaseModelSub = true)
    (hfail : ∀ i : Nat, i < cfg.numProcessors →
      isException (makeSingleRequest cfg.maxRetries
        (env.procOracle (actualFormat fmt passReasoning) i)).1 = true) :
    (parse cfg env model messages (some fmt) passReasoning).1 =
      Except.error (PError.processing "All parallel processors failed"
        (some cfg.numProcessors)) := by
  have hall : ∀ r ∈ fanResults cfg (env.procOracle (actualFormat fmt passReasoning)),
      isException r = true := by
    intro r hr
    simp only [fanResults, List.mem_map, List.mem_range] at hr
    obtain ⟨i, hi, hri⟩ := hr
    rw [← hri]
    exact hfail i hi
  have hempty : (fanResults cfg
      (env.procOracle (actualFormat fmt passReasoning))).filterMap
        Except.toOption = [] := by
    rw [List.filterMap_eq_nil_iff]
    intro a ha
    have h := hall a ha
    cases a with
    | error e => rfl
    | ok v => simp [isException] at h
  have hcount : (fanResults cfg
      (env.procOracle (actualFormat fmt passReasoning))).countP isException =
        cfg.numProcessors := by
    rw [List.countP_eq_length.mpr hall]
    simp [fanResults]
  have hfan : (processParallelRequests cfg env.procOracle fmt passReasoning).1 =
      Except.error (PError.processing "All parallel processors failed"
        (some cfg.numProcessors)) := by
    simp only [processParallelRequests, hempty, hcount, List.isEmpty_nil, if_true]
  simp only [parse, parseInternal]
  rw [if_neg hm, if_neg hmsg]
  simp only [hbm]
  rw [if_neg (by simp)]
  rw [hfan]

/-- Concrete run of the C2 theorem: three processors, every attempt times
out, the pipeline fails with a failure count of three. -/
theorem parse_all_processors_failed_witness :
    (parse ⟨3, 2⟩ failEnv "gpt-4o" [("user", "q")] (some cexFmt) false).1 =
      Except.error (PError.processing "All parallel processors failed"
        (some 3)) :=
  parse_all_processors_failed ⟨3, 2⟩ failEnv "gpt-4o" [("user", "q")] cexFmt
    false (by decide) (by simp) rfl (fun i _ => rfl)

/-- C9: `parse` raises `ValidationError` — with zero provider calls
issued, so before any fan-out — whenever the model name is empty, the
messages list is empty, or the response format is missing or not a
pydantic `BaseModel` subclass. -/
theorem parse_rejects_invalid_input_before_any_call (cfg : FrameworkConfig)
    (env : Env) (model : String) (messages : List (String × String))
    (responseFormat : Option Schema) (passReasoning : Bool)
    (h : model = "" ∨ messages = [] ∨ responseFormat = none ∨
      ∃ fmt, responseFormat = some fmt ∧ fmt.isBaseModelSub = false) :
    ∃ msg, parse cfg env model messages responseFormat passReasoning =
      (Except.error (PError.validation msg), 0) := by
  by_cases hm : model = ""
  · exact ⟨"Model name is required", by simp [parse, parseInternal, hm]⟩
  by_cases hmsg : messages = []
  · exact ⟨"Messages are required", by simp [parse, parseInternal, hm, hmsg]⟩
  rcases h with h | h | h | ⟨fmt, hf, hb⟩
  · exact absurd h hm
  · exact absurd h hmsg
  · exact ⟨"Response format is required",
      by simp [parse, parseInternal, hm, hmsg, h]⟩
  · subst hf
    exact ⟨"Response format must be a Pydantic BaseModel",
      by simp [parse, parseInternal, hm, hmsg, hb]⟩

/-- Concrete run of the C9 theorem: empty model name, no provider call
issued. -/
theorem parse_rejects_invalid_input_before_any_call_witness :
    ∃ msg, parse ⟨1, 0⟩ confEnv "" [("user", "q")] (some cexFmt) false =
      (Except.error (PError.validation msg), 0) :=
  parse_rejects_invalid_input_before_any_call ⟨1, 0⟩ confEnv ""
    [("user", "q")] (some cexFmt) false (Or.inl rfl)

/-- C1: whenever at least one fan-out processor succeeds (processor `i`,
`i < numProcessors`, so `numProcessors ≥ 1`) and the provider honours the
structured-output contract, `parse` returns a value that is an instance of
the caller's response format — in particular it does not raise the
all-processors-failed error. -/
theorem parse_ok_of_processor_success (cfg : FrameworkConfig) (env : Env)
    (model : String) (messages : List (String × String)) (fmt : Schema)
    (passReasoning : Bool)
    (hm : model ≠ "") (hmsg : messages ≠ []) (hbm : fmt.isBaseModelSub = true)
    (hconf : envConforms env) (i : Nat) (hi : i < cfg.numProcessors)
    (v : Value)
    (hsucc : (makeSingleRequest cfg.maxRetries
      (env.procOracle (actualFormat fmt passReasoning) i)).1 = Except.ok v) :
    ∃ w, (parse cfg env model messages (some fmt) passReasoning).1 =
        Except.ok w ∧ isSubclassOf w.cls (Cls.base fmt) = true := by
  have hmem : Except.ok v ∈
      fanResults cfg (env.procOracle (actualFormat fmt passReasoning)) := by
    simp only [fanResults, List.mem_map, List.mem_range]
    exact ⟨i, hi, hsucc⟩
  have hvmem : v ∈ (fanResults cfg
      (env.procOracle (actualFormat fmt passReasoning))).filterMap
        Except.toOption :=
    List.mem_filterMap.mpr ⟨Except.ok v, hmem, rfl⟩
  have hne : ((fanResults cfg
      (env.procOracle (actualFormat fmt passReasoning))).filterMap
        Except.toOption).isEmpty = false := by
    cases hl : (fanResults cfg
        (env.procOracle (actualFormat fmt passReasoning))).filterMap
          Except.toOption with
    | nil => rw [hl] at hvmem; simp at hvmem
    | cons a t => rfl
  have hfan : (processParallelRequests cfg env.procOracle fmt passReasoning).1 =
      Except.ok ((fanResults cfg
        (env.procOracle (actualFormat fmt passReasoning))).filterMap
          Except.toOption) := by
    simp only [processParallelRequests, hne, if_false, Bool.false_eq_true]
  have hconfmem : ∀ w ∈ (fanResults cfg
      (env.procOracle (actualFormat fmt passReasoning))).filterMap
        Except.toOption, isSubclassOf w.cls (Cls.base fmt) = true := by
    intro w hw
    obtain ⟨a, ha, hconv⟩ := List.mem_filterMap.mp hw
    cases a with
    | error e => simp [Except.toOption] at hconv
    | ok u =>
      have hu : u = w := by simpa [Except.toOption] using hconv
      subst hu
      simp only [fanResults, List.mem_map, List.mem_range] at ha
      obtain ⟨j, hj, hju⟩ := ha
      obtain ⟨hcls, _⟩ := makeSingleRequest_ok_conforms cfg.maxRetries
        (env.procOracle (actualFormat fmt passReasoning) j)
        (actualFormat fmt passReasoning)
        (hconf.1 (actualFormat fmt passReasoning) j) u hju
      rw [hcls]
      exact actualFormat_subclass fmt passReasoning
  obtain ⟨w, hwdec, hwsub⟩ := makeDecision_ok_of_conforming cfg
    env.decisionOracle fmt (hconf.2 (Cls.base fmt)) _
    (List.ne_nil_of_mem hvmem) hconfmem
  refine ⟨w, ?_, hwsub⟩
  simp only [parse, parseInternal]
  rw [if_neg hm, if_neg hmsg]
  simp only [hbm]
  rw [if_neg (by simp)]
  rw [hfan]
  simp only [hwdec, validateFinal_id_of_instance fmt w hwsub]

/-- Concrete run of the C1 theorem: one processor, the provider succeeds
with a conforming value, `parse` returns a conforming value. -/
theorem parse_ok_of_processor_success_witness :
    ∃ w, (parse ⟨1, 0⟩ confEnv "gpt-4o" [("user", "q")] (some cexFmt)
        false).1 = Except.ok w ∧
      isSubclassOf w.cls (Cls.base cexFmt) = true :=
  parse_ok_of_processor_success ⟨1, 0⟩ confEnv "gpt-4o" [("user", "q")]
    cexFmt false (by decide) (by simp) rfl confEnv_conforms 0 (by decide)
    (confValue (actualFormat cexFmt false)) rfl

/-- C3 as stated is false: with `passReasoning = true` and a single
successful processor, the reasoning-augmented value is returned through
the single-candidate short-circuit, passes the `isinstance` check (its
class subclasses the caller's format), and reaches the caller with its
`reasoning` field still present. -/
theorem reasoning_field_leak_counterexample :
    (parse ⟨1, 0⟩ leakEnv "gpt-4o" [("user", "q")] (some cexFmt) true).1 =
      Except.ok ⟨Cls.withReasoning cexFmt,
        [("ans", "42"), ("reasoning", "because")]⟩ ∧
      ([("ans", "42"), ("reasoning", "because")] :
        List (String × String)).lookup "reasoning" = some "because" :=
  ⟨rfl, rfl⟩

/-- C3 amended: with `passReasoning = true` every fan-out request uses the
reasoning-augmented schema variant (the original fields plus a `reasoning`
field), and the final value carries no `reasoning` field whenever the
decision-maker synthesis call is actually issued (the candidate count
differs from one) and succeeds; the single-candidate short-circuit
and the decision-maker fallback can instead return a reasoning-augmented
candidate directly. -/
theorem reasoning_schema_used_and_stripped_when_decision_succeeds
    (cfg : FrameworkConfig) (env : Env) (model : String)
    (messages : List (String × String)) (fmt : Schema)
    (hm : model ≠ "") (hmsg : messages ≠ []) (hbm : fmt.isBaseModelSub = true)
    (hnr : "reasoning" ∉ fmt.fields)
    (hdec : oracleConforms (env.decisionOracle (Cls.base fmt)) (Cls.base fmt))
    (successes : List Value)
    (hfan : (processParallelRequests cfg env.procOracle fmt true).1 =
      Except.ok successes)
    (hlen : successes.length ≠ 1) (w : Value)
    (hw : (makeSingleRequest cfg.maxRetries
      (env.decisionOracle (Cls.base fmt))).1 = Except.ok w) :
    actualFormat fmt true = Cls.withReasoning fmt ∧
      clsFields (actualFormat fmt true) = fmt.fields ++ ["reasoning"] ∧
      (parse cfg env model messages (some fmt) true).1 = Except.ok w ∧
      w.data.lookup "reasoning" = none := by
  obtain ⟨hcls, hwf⟩ := makeSingleRequest_ok_conforms cfg.maxRetries
    (env.decisionOracle (Cls.base fmt)) (Cls.base fmt) hdec w hw
  have hdecok : (makeDecision cfg env.decisionOracle fmt successes).1 =
      Except.ok w := by
    simp [makeDecision, hlen, hw]
  have hsub : isSubclassOf w.cls (Cls.base fmt) = true := by
    rw [hcls]
    simp [isSubclassOf]
  have hkeys : w.data.map Prod.fst = fmt.fields := by
    have hb : (w.data.map Prod.fst == clsFields w.cls) = true := by
      simpa [wellFormed] using hwf
    rw [beq_iff_eq] at hb
    rw [hb, hcls]
    rfl
  refine ⟨rfl, rfl, ?_, ?_⟩
  · simp only [parse, parseInternal]
    rw [if_neg hm, if_neg hmsg]
    simp only [hbm]
    rw [if_neg (by simp)]
    rw [hfan]
    simp only [hdecok, validateFinal_id_of_instance fmt w hsub]
  · exact lookup_eq_none_of_not_mem_keys w.data "reasoning"
      (by rw [hkeys]; exact hnr)

/-- Concrete run of the amended C3 theorem: two reasoning-augmented
candidates, a succeeding decision call with the original format, the
returned value has no `reasoning` field. -/
theorem reasoning_schema_used_and_stripped_witness :
    actualFormat cexFmt true = Cls.withReasoning cexFmt ∧
      clsFields (actualFormat cexFmt true) = cexFmt.fields ++ ["reasoning"] ∧
      (parse ⟨2, 0⟩ leakEnv "gpt-4o" [("user", "q")] (some cexFmt) true).1 =
        Except.ok ⟨Cls.base cexFmt, [("ans", "7")]⟩ ∧
      (⟨Cls.base cexFmt, [("ans", "7")]⟩ : Value).data.lookup "reasoning" =
        none :=
  reasoning_schema_used_and_stripped_when_decision_succeeds ⟨2, 0⟩ leakEnv
    "gpt-4o" [("user", "q")] cexFmt (by decide) (by simp) rfl (by decide)
    (by
      intro k v h
      simp only [leakEnv] at h
      injection h with h2
      subst h2
      exact ⟨rfl, rfl⟩)
    [⟨Cls.withReasoning cexFmt, [("ans", "42"), ("reasoning", "because")]⟩,
     ⟨Cls.withReasoning cexFmt, [("ans", "42"), ("reasoning", "because")]⟩]
    rfl (by decide) ⟨Cls.base cexFmt, [("ans", "7")]⟩ rfl

/-- C10: the gathered fan-out outcomes stay in task (processor-index)
order: the successes list embeds as an order-preserving subsequence of the
per-task results, and when processor `i` is the success with the smallest
index, the head of the successes list — the value the decision-maker
fallback would return — is processor `i`'s value, independent of
completion timing. -/
theorem fanout_successes_preserve_task_order (cfg : FrameworkConfig)
    (env : Env) (fmt : Schema) (passReasoning : Bool)
    (successes : List Value)
    (hok : (processParallelRequests cfg env.procOracle fmt passReasoning).1 =
      Except.ok successes)
    (i : Nat) (hi : i < cfg.numProcessors) (v : Value)
    (hiv : (makeSingleRequest cfg.maxRetries
      (env.procOracle (actualFormat fmt passReasoning) i)).1 = Except.ok v)
    (hmin : ∀ j : Nat, j < i →
      isException (makeSingleRequest cfg.maxRetries
        (env.procOracle (actualFormat fmt passReasoning) j)).1 = true) :
    List.Sublist (successes.map Except.ok)
      (fanResults cfg (env.procOracle (actualFormat fmt passReasoning))) ∧
      successes.head? = some v := by
  have hsucc : successes = (fanResults cfg
      (env.procOracle (actualFormat fmt passReasoning))).filterMap
        Except.toOption := by
    by_cases hemp : ((fanResults cfg
        (env.procOracle (actualFormat fmt passReasoning))).filterMap
          Except.toOption).isEmpty = true
    · simp only [processParallelRequests, hemp, if_true] at hok
      cases hok
    · simp only [processParallelRequests] at hok
      rw [if_neg hemp] at hok
      injection hok with h2
      rw [h2]
  have hgl : ∀ j : Nat, j < cfg.numProcessors →
      (fanResults cfg (env.procOracle (actualFormat fmt passReasoning)))[j]? =
        some ((makeSingleRequest cfg.maxRetries
          (env.procOracle (actualFormat fmt passReasoning) j)).1) := by
    intro j hj
    simp [fanResults, List.getElem?_map, List.getElem?_range, hj]
  refine ⟨?_, ?_⟩
  · rw [hsucc]
    exact filterMap_toOption_map_ok_sublist _
  · rw [hsucc]
    apply filterMap_toOption_head _ i v
    · rw [hgl i hi, hiv]
    · intro j hj
      have hjN : j < cfg.numProcessors := lt_trans hj hi
      have hje := hmin j hj
      cases hc : (makeSingleRequest cfg.maxRetries
          (env.procOracle (actualFormat fmt passReasoning) j)).1 with
      | ok u => rw [hc] at hje; simp [isException] at hje
      | error e => exact ⟨e, by rw [hgl j hjN, hc]⟩

/-- Concrete run of the C10 theorem: processor 0 fails, processor 1
succeeds; the successes list is the order-preserving subsequence and its
head is processor 1's value. -/
theorem fanout_successes_preserve_task_order_witness :
    List.Sublist ([confValue (Cls.base cexFmt)].map Except.ok)
      (fanResults ⟨2, 0⟩
        (mixedEnv.procOracle (actualFormat cexFmt false))) ∧
      ([confValue (Cls.base cexFmt)] : List Value).head? =
        some (confValue (Cls.base cexFmt)) :=
  fanout_successes_preserve_task_order ⟨2, 0⟩ mixedEnv cexFmt false
    [confValue (Cls.base cexFmt)] rfl 1 (by decide)
    (confValue (Cls.base cexFmt)) rfl
    (fun j hj => by
      have h0 : j = 0 := Nat.lt_one_iff.mp hj
      subst h0
      rfl)

end ParallelLLM
